import Mathlib

/-!
Verification of the release-automation helper scripts
(`scripts/safe-version-bump.js` / `test-versioning.js`,
`scripts/version-helper.js`, `scripts/changelog-generator.js` /
`test-workflow.js`) of the date-time-picker repository.

The JavaScript sources are shallowly embedded: strings are Lean `String`
(a list of characters), JavaScript numbers that can be `NaN`/`undefined`
are modelled by the `JsNum` type, the git repository consumed through
`execSync` is modelled by the `GitRepo` state, and the package manifests
by `ManifestState`.  Every definition is translated from the source
scripts; doc comments name the source function each definition embeds.
-/

/-! ## String helpers modelling the JavaScript primitives used by the scripts -/

/-- Whitespace test used by the model of JavaScript's `trim` (the
characters relevant to the scripts' inputs). -/
def isWsChar (c : Char) : Bool :=
  c == ' ' || c == '\t' || c == '\n' || c == '\r' || c == '\x0b' || c == '\x0c'

/-- Strip leading and trailing whitespace from a character list. -/
def trimChars (cs : List Char) : List Char :=
  ((cs.dropWhile isWsChar).reverse.dropWhile isWsChar).reverse

/-- Model of JavaScript `String.prototype.trim`. -/
def jsTrim (s : String) : String :=
  String.mk (trimChars s.data)

/-- Model of JavaScript `String.prototype.toLowerCase` (ASCII case folding,
which is all the scripts' match patterns exercise). -/
def jsToLower (s : String) : String :=
  String.mk (s.data.map Char.toLower)

/-- Does the character list contain `pat` as a contiguous sublist?
Model of JavaScript `String.prototype.includes` on the underlying
characters. -/
def hasSubList (pat : List Char) : List Char → Bool
  | [] => pat.isEmpty
  | c :: rest => pat.isPrefixOf (c :: rest) || hasSubList pat rest

/-- Model of JavaScript `message.includes(pat)`. -/
def jsIncludes (s pat : String) : Bool :=
  hasSubList pat.data s.data

/-- Model of JavaScript `message.startsWith(pat)`. -/
def jsStartsWith (s pat : String) : Bool :=
  pat.data.isPrefixOf s.data

/-- Split a character list at every occurrence of `sep`; always returns at
least one (possibly empty) piece, exactly like JavaScript
`String.prototype.split` with a one-character separator. -/
def splitChars (sep : Char) : List Char → List (List Char)
  | [] => [[]]
  | c :: cs =>
      let r := splitChars sep cs
      if c == sep then [] :: r
      else
        match r with
        | h :: t => (c :: h) :: t
        | [] => [[c]]

/-- Model of JavaScript `s.split(sep)` for the one-character separators
(`'.'` and `'\n'`) the scripts use. -/
def jsSplit (s : String) (sep : Char) : List String :=
  (splitChars sep s.data).map String.mk

/-- Interleave `sep` between the pieces (the inverse of `splitChars`);
model of `Array.prototype.join` on the underlying characters. -/
def interChars (sep : Char) : List (List Char) → List Char
  | [] => []
  | [x] => x
  | x :: xs => x ++ sep :: interChars sep xs

/-- Model of JavaScript `lines.join('\n')`. -/
def joinNl (ls : List String) : String :=
  String.mk (interChars '\n' (ls.map String.data))

/-- Value of a decimal digit character. -/
def decDigitVal (c : Char) : Option Nat :=
  if c.isDigit then some (c.toNat - 48) else none

/-- Value of a hexadecimal digit character. -/
def hexDigitVal (c : Char) : Option Nat :=
  if c.isDigit then some (c.toNat - 48)
  else if 'a' ≤ c && c ≤ 'f' then some (c.toNat - 87)
  else if 'A' ≤ c && c ≤ 'F' then some (c.toNat - 55)
  else none

/-- Values of the longest prefix of digit characters (the scan performed
by JavaScript `parseInt`). -/
def digitValsOfLongest (dv : Char → Option Nat) : List Char → List Nat
  | [] => []
  | c :: cs =>
      match dv c with
      | some d => d :: digitValsOfLongest dv cs
      | none => []

/-- Accumulate digit values in the given base. -/
def valOfDigitVals (base : Nat) (ds : List Nat) : Nat :=
  ds.foldl (fun a d => a * base + d) 0

/-- Values of the characters when every character is a digit, `none`
otherwise (the whole-string scan performed by JavaScript `Number`). -/
def digitValsOfAll (dv : Char → Option Nat) : List Char → Option (List Nat)
  | [] => some []
  | c :: cs =>
      match dv c with
      | some d => (digitValsOfAll dv cs).map (fun ds => d :: ds)
      | none => none

/-- Shared digit scan of the model of `parseInt`: optional sign, optional
`0x`/`0X` hexadecimal marker, then the longest digit prefix; no digit at
all yields `none` (JavaScript `NaN`). -/
def jsParseIntDigits (sgn : Int) (cs : List Char) : Option Int :=
  match cs with
  | '0' :: 'x' :: rest =>
      let ds := digitValsOfLongest hexDigitVal rest
      if ds.isEmpty then none else some (sgn * (valOfDigitVals 16 ds : Int))
  | '0' :: 'X' :: rest =>
      let ds := digitValsOfLongest hexDigitVal rest
      if ds.isEmpty then none else some (sgn * (valOfDigitVals 16 ds : Int))
  | rest =>
      let ds := digitValsOfLongest decDigitVal rest
      if ds.isEmpty then none else some (sgn * (valOfDigitVals 10 ds : Int))

/-- Model of JavaScript `parseInt(s)` (no explicit radix): skip leading
whitespace, read an optional sign, an optional `0x` marker, then the
longest digit prefix; `none` models `NaN`. -/
def jsParseInt (s : String) : Option Int :=
  match s.data.dropWhile isWsChar with
  | '-' :: rest => jsParseIntDigits (-1) rest
  | '+' :: rest => jsParseIntDigits 1 rest
  | cs => jsParseIntDigits 1 cs

/-- Model of JavaScript `Number(s)` restricted to the integer numerals the
scripts can encounter: the whole trimmed string must be an (optionally
signed) decimal numeral or an unsigned `0x` hexadecimal numeral; the empty
string converts to `0`; anything else — in particular any string with a
non-digit character, as the fractional and exponent forms never produced
by these scripts — is `NaN` (`none`). -/
def jsNumber (s : String) : Option Int :=
  match trimChars s.data with
  | [] => some 0
  | '0' :: 'x' :: ds =>
      if ds.isEmpty then none
      else (digitValsOfAll hexDigitVal ds).map (fun l => (valOfDigitVals 16 l : Int))
  | '0' :: 'X' :: ds =>
      if ds.isEmpty then none
      else (digitValsOfAll hexDigitVal ds).map (fun l => (valOfDigitVals 16 l : Int))
  | '-' :: ds =>
      if ds.isEmpty then none
      else (digitValsOfAll decDigitVal ds).map (fun l => -(valOfDigitVals 10 l : Int))
  | '+' :: ds =>
      if ds.isEmpty then none
      else (digitValsOfAll decDigitVal ds).map (fun l => (valOfDigitVals 10 l : Int))
  | ds =>
      (digitValsOfAll decDigitVal ds).map (fun l => (valOfDigitVals 10 l : Int))

/-- A JavaScript numeric value as the scripts observe it: an integer,
`NaN`, or `undefined` (a missing array element). -/
inductive JsNum where
  | num (n : Int)
  | nan
  | undefVal
deriving DecidableEq

/-- JavaScript addition with an integer: `NaN` and `undefined` both
propagate to `NaN`. -/
def JsNum.addInt : JsNum → Int → JsNum
  | .num n, k => .num (n + k)
  | _, _ => .nan

/-- JavaScript `>` against an integer: any comparison involving `NaN` or
`undefined` is false. -/
def JsNum.gtInt : JsNum → Int → Bool
  | .num n, k => k < n
  | _, _ => false

/-- JavaScript `<` against an integer: any comparison involving `NaN` or
`undefined` is false. -/
def JsNum.ltInt : JsNum → Int → Bool
  | .num n, k => n < k
  | _, _ => false

/-- Rendering inside a template literal: `` `${x}` ``. -/
def JsNum.render : JsNum → String
  | .num n => toString n
  | .nan => "NaN"
  | .undefVal => "undefined"

/-- `Number(s)` as a `JsNum` (never `undefined`). -/
def jsNumberV (s : String) : JsNum :=
  match jsNumber s with
  | some n => .num n
  | none => .nan

/-- The `i`-th dot-separated component of a version string after
`currentVersion.split('.').map(Number)`: a missing component is
`undefined`. -/
def numCompV (v : String) (i : Nat) : JsNum :=
  match (jsSplit v '.')[i]? with
  | some s => jsNumberV s
  | none => .undefVal

/-- The `i`-th dot-separated component of a version string. -/
def verComp (v : String) (i : Nat) : Option String :=
  (jsSplit v '.')[i]?

/-- `parseInt(versionParts[i]) || 0` as in `version-helper.js`: a missing
component (`parseInt(undefined)`) and an unparseable component are both
`NaN`, which `|| 0` turns into `0`; `parseInt` returning `0` is also
replaced by `0`, which is the same value. -/
def parseIntOr0 (x : Option String) : Int :=
  match x with
  | none => 0
  | some s => (jsParseInt s).getD 0

/-! ## Safe Version Bumper (`safeBumpVersion` and helpers in
`test-versioning.js`) -/

/-- Branch policy record returned by `getVersionConstraints`. -/
structure Constraints where
  maxMajor : Int
  defaultMinor : Int
deriving DecidableEq

/-- `getVersionConstraints(branch)`: only `main` has a policy
(`{ maxMajor: 15, defaultMinor: 2 }`); every other branch yields `null`. -/
def getVersionConstraints (branch : String) : Option Constraints :=
  if branch == "main" then some { maxMajor := 15, defaultMinor := 2 }
  else none

/-- The breaking-change test `analyzeCommits` applies to a commit line:
the lowercased message contains `"breaking change"` or `"!:"`. -/
def isBreakingMsg (commit : String) : Bool :=
  let message := jsToLower commit
  jsIncludes message "breaking change" || jsIncludes message "!:"

/-- The feature test `analyzeCommits` applies to a commit line: the
lowercased message starts with `"feat:"` or `"feat("`. -/
def isFeatureMsg (commit : String) : Bool :=
  let message := jsToLower commit
  jsStartsWith message "feat:" || jsStartsWith message "feat("

/-- The fix test `analyzeCommits` applies to a commit line: the lowercased
message starts with `"fix:"` or `"fix("`. -/
def isFixMsg (commit : String) : Bool :=
  let message := jsToLower commit
  jsStartsWith message "fix:" || jsStartsWith message "fix("

/-- `analyzeCommits(commits)`: one pass over the commit lines accumulating
the `hasBreaking` / `hasFeature` / `hasFix` flags, then the decision rule;
the returned bump type is the string the script returns. -/
def analyzeCommits (commits : List String) : String :=
  let hasBreaking := commits.any isBreakingMsg
  let hasFeature := commits.any isFeatureMsg
  let hasFix := commits.any isFixMsg
  if hasBreaking || hasFeature then "minor"
  else if hasFix then "patch"
  else "patch"

/-- `calculateNewVersion(currentVersion, bumpType, constraints)`:
destructures `currentVersion.split('.').map(Number)` into
major/minor/patch, clamps above the ceiling, snaps up below it, and
otherwise applies the requested bump (the `switch` falls through to the
unchanged version for an unknown bump type). -/
def calculateNewVersion (currentVersion bumpType : String) (c : Constraints) : String :=
  let major := numCompV currentVersion 0
  let minor := numCompV currentVersion 1
  let patch := numCompV currentVersion 2
  if major.gtInt c.maxMajor then
    toString c.maxMajor ++ "." ++ toString c.defaultMinor ++ ".0"
  else if major.ltInt c.maxMajor then
    toString c.maxMajor ++ "." ++ toString c.defaultMinor ++ "." ++ patch.render
  else if bumpType == "minor" then
    major.render ++ "." ++ (minor.addInt 1).render ++ ".0"
  else if bumpType == "patch" then
    major.render ++ "." ++ minor.render ++ "." ++ (patch.addInt 1).render
  else currentVersion

/-! ## Model of the git state the scripts consume through `execSync` -/

/-- One commit as it appears in the version-control log: its
`git log --oneline` output line and whether it is a merge commit
(the property `--no-merges` filters on). -/
structure CommitRec where
  line : String
  isMerge : Bool
deriving DecidableEq

/-- The git repository state consumed by the scripts. `commits` is the
full log, newest first, as `git log` emits it; `tagCount` is the number of
commits strictly after the most recent tag (`none` when `git describe`
finds no tag, in which case the scripts fall back to the last 10
commits); `logFails` models the `git log` subprocess erroring, which
`runCommand` catches and converts into the empty string. -/
structure GitRepo where
  commits : List CommitRec
  tagCount : Option Nat
  logFails : Bool
deriving DecidableEq

/-- The commits selected by the `git log` invocation the scripts build:
the commits strictly after the most recent tag (`{tag}..HEAD`), or the 10
most recent ones when no tag exists; `noMerges` is the presence of the
`--no-merges` flag in the command line. -/
def gitLogSelect (repo : GitRepo) (noMerges : Bool) : List CommitRec :=
  match repo.tagCount with
  | some n =>
      let ranged := repo.commits.take n
      if noMerges then ranged.filter (fun c => !c.isMerge) else ranged
  | none =>
      let pool := if noMerges then repo.commits.filter (fun c => !c.isMerge) else repo.commits
      pool.take 10

/-- `runCommand(gitLogCommand)`: the selected commit lines joined with
newlines and trimmed (`execSync(...).trim()`); a failing subprocess is
caught and yields the empty string. -/
def runGitLog (repo : GitRepo) (noMerges : Bool) : String :=
  if repo.logFails then ""
  else jsTrim (String.mk (interChars '\n' ((gitLogSelect repo noMerges).map (fun c => c.line.data))))

/-- `getCommitsSinceLastTag()` of the Safe Version Bumper
(`test-versioning.js`): note the built command has no `--no-merges` flag;
an empty or failed log yields `[]`, otherwise the output is split on
newlines and blank lines are dropped. -/
def getCommitsSinceLastTag (repo : GitRepo) : List String :=
  let commits := runGitLog repo false
  if commits == "" then []
  else (jsSplit commits '\n').filter (fun l => !(jsTrim l == ""))

/-! ## Manifests and the bump / resolver pipelines -/

/-- The versions recorded in the root `package.json` and, when present,
the library `projects/picker/package.json`.  The scripts only ever change
the `version` fields (the `packageNameSuffix` of `version-helper.js` is
the empty string on every path, so manifest names never change). -/
structure ManifestState where
  rootVersion : String
  libVersion : Option String
deriving DecidableEq

/-- `updatePackageFiles(newVersion)`: writes the new version into the root
manifest and, when the library manifest exists, into it as well. -/
def updatePackageFiles (newVersion : String) (st : ManifestState) : ManifestState :=
  { rootVersion := newVersion, libVersion := st.libVersion.map (fun _ => newVersion) }

/-- Result of a `safeBumpVersion` run: the manifest state it leaves behind
and the process exit status (`0` also stands for the plain `return`
paths). -/
structure BumpOutcome where
  manifests : ManifestState
  exitCode : Nat
deriving DecidableEq

/-- `safeBumpVersion()` of `test-versioning.js`, with the current branch,
the git state and the manifests passed explicitly: no policy or no
commits is a no-op; otherwise the commits are classified, the new version
computed, an unchanged version is a no-op, a computed version whose major
exceeds the ceiling aborts with exit status 1, and otherwise both
manifests are rewritten. -/
def safeBumpVersion (branch : String) (repo : GitRepo) (st : ManifestState) : BumpOutcome :=
  match getVersionConstraints branch with
  | none => { manifests := st, exitCode := 0 }
  | some constraints =>
      let currentVersion := st.rootVersion
      let commits := getCommitsSinceLastTag repo
      if commits.length == 0 then { manifests := st, exitCode := 0 }
      else
        let bumpType := analyzeCommits commits
        let newVersion := calculateNewVersion currentVersion bumpType constraints
        if newVersion == currentVersion then { manifests := st, exitCode := 0 }
        else
          let newMajor :=
            match (jsSplit newVersion '.')[0]? with
            | some s => jsNumberV s
            | none => JsNum.undefVal
          if newMajor.gtInt constraints.maxMajor then { manifests := st, exitCode := 1 }
          else { manifests := updatePackageFiles newVersion st, exitCode := 0 }

/-- `updatePackageVersion()` of `version-helper.js`, with the current
branch and the manifests passed explicitly: on `main`, a major version
other than 15 is rewritten to `15.2.{currentPatch}` in the root manifest
and, when present, the library manifest; otherwise (major already 15, or
an unknown branch) nothing changes. -/
def updatePackageVersion (branch : String) (st : ManifestState) : ManifestState :=
  let versionParts := jsSplit st.rootVersion '.'
  let currentMajor := parseIntOr0 versionParts[0]?
  let currentPatch := parseIntOr0 versionParts[2]?
  if branch == "main" then
    let targetMajor : Int := 15
    let newVersion :=
      if currentMajor ≠ targetMajor then
        toString targetMajor ++ ".2." ++ toString currentPatch
      else st.rootVersion
    if newVersion ≠ st.rootVersion then
      { rootVersion := newVersion, libVersion := st.libVersion.map (fun _ => newVersion) }
    else st
  else st

/-- `validateVersionForBranch()` of `version-helper.js`, returning the
process exit status: `main` with a major version other than 15 exits 1,
everything else exits 0; the function only reads the manifest. -/
def validateVersionForBranch (branch : String) (rootVersion : String) : Nat :=
  let currentMajor := parseIntOr0 (jsSplit rootVersion '.')[0]?
  if branch == "main" && !(currentMajor == 15) then 1 else 0

/-! ## Changelog Generator (`test-workflow.js`) -/

/-- The four buckets `categorizeCommits` fills. -/
structure Categories where
  breaking : List String
  features : List String
  fixes : List String
  other : List String
deriving DecidableEq

/-- The breaking test of `categorizeCommits`: the lowercased message
contains `"breaking change"` or `"!:"`. -/
def genIsBreaking (commit : String) : Bool :=
  let message := jsToLower commit
  jsIncludes message "breaking change" || jsIncludes message "!:"

/-- The feature test of `categorizeCommits`: the lowercased message
contains (`includes`, not `startsWith`) `"feat:"` or `"feat("`. -/
def genIsFeature (commit : String) : Bool :=
  let message := jsToLower commit
  jsIncludes message "feat:" || jsIncludes message "feat("

/-- The fix test of `categorizeCommits`: the lowercased message contains
(`includes`, not `startsWith`) `"fix:"` or `"fix("`. -/
def genIsFix (commit : String) : Bool :=
  let message := jsToLower commit
  jsIncludes message "fix:" || jsIncludes message "fix("

/-- One step of the `categorizeCommits` loop: the first matching test in
the `if`/`else if` chain receives the commit (`push` appends at the
end). -/
def categorizeStep (cat : Categories) (commit : String) : Categories :=
  if genIsBreaking commit then { cat with breaking := cat.breaking ++ [commit] }
  else if genIsFeature commit then { cat with features := cat.features ++ [commit] }
  else if genIsFix commit then { cat with fixes := cat.fixes ++ [commit] }
  else { cat with other := cat.other ++ [commit] }

/-- `categorizeCommits(commits)` of the Changelog Generator. -/
def categorizeCommits (commits : List String) : Categories :=
  commits.foldl categorizeStep { breaking := [], features := [], fixes := [], other := [] }

/-- The content `updateChangelog` starts from when `CHANGELOG.md` does not
exist yet. -/
def defaultChangelogHeader : String :=
  "# Changelog\n\nAll notable changes to this project will be documented in this file.\n\n"

/-- `line.startsWith('## [')`: the test `updateChangelog` uses to find the
first existing dated entry. -/
def isEntryStart (l : String) : Bool :=
  jsStartsWith l "## ["

/-- JavaScript `lines.findIndex(line => line.startsWith('## ['))`:
`none` models the `-1` of a failed search. -/
def findEntryIdx : List String → Option Nat
  | [] => none
  | l :: ls => if isEntryStart l then some 0 else (findEntryIdx ls).map (· + 1)

/-- `lines.findIndex(...) || lines.length` as JavaScript evaluates it:
`findIndex` yields `-1` when nothing matches, and `||` replaces only the
falsy `0` (a match on the very first line) by `lines.length`, while the
truthy `-1` is kept. -/
def headerEndIndex (lines : List String) : Int :=
  let fi : Int :=
    match findEntryIdx lines with
    | some i => (i : Int)
    | none => -1
  if fi = 0 then (lines.length : Int) else fi

/-- The line-level insertion of `updateChangelog`: when `headerEndIndex`
is `-1` or `lines.length`, the entry goes after `lines.slice(0, 3)` (the
assumed three header lines); otherwise it is spliced in just before the
first existing entry line. -/
def updateChangelogLines (newEntry : String) (lines : List String) : List String :=
  let hei := headerEndIndex lines
  if hei = -1 ∨ hei = (lines.length : Int) then
    let headerLines := lines.take 3
    headerLines ++ [""] ++ [jsTrim newEntry] ++ [""] ++ lines.drop 3
  else
    lines.take hei.toNat ++ [jsTrim newEntry, ""] ++ lines.drop hei.toNat

/-- `updateChangelog(newEntry)`: reads the existing `CHANGELOG.md` (or the
default header when the file is absent), splits it into lines, splices the
new entry in, and writes the lines back joined with newlines. -/
def updateChangelog (newEntry : String) (existing : Option String) : String :=
  let existingContent := existing.getD defaultChangelogHeader
  joinNl (updateChangelogLines newEntry (jsSplit existingContent '\n'))

/-- The header block of the freshly created changelog document, as it
appears at the top of the split line list: the three default header lines
followed by the blank line that separates the header from the first
entry. -/
def changelogHeaderLines : List String :=
  ["# Changelog", "", "All notable changes to this project will be documented in this file.", ""]

/-- A sequence of Changelog Generator runs over an existing changelog
file: each run reads the content left by the previous one and inserts the
next entry (`updateChangelog` with `existing = some`). -/
def applyEntries (start : String) (es : List String) : String :=
  es.foldl (fun c e => updateChangelog e (some c)) start

/-! ## Concrete states used by the end-to-end and counterexample theorems -/

/-- A commit line as `git log --oneline` actually emits it: nonempty,
without surrounding whitespace, and without an embedded newline. -/
def cleanLine (s : String) : Bool :=
  !s.data.isEmpty && (trimChars s.data == s.data) && !s.data.contains '\n'

/-- Repository state of the end-to-end scenario: the two commits
`fix: a` and `feat: b` since the most recent tag. -/
def mainFixFeatRepo : GitRepo :=
  { commits := [{ line := "fix: a", isMerge := false }, { line := "feat: b", isMerge := false }],
    tagCount := some 2, logFails := false }

/-- Repository state whose only commit since the most recent tag is a
merge commit. -/
def mergeOnlyRepo : GitRepo :=
  { commits := [{ line := "abc123 Merge branch dev", isMerge := true }],
    tagCount := some 1, logFails := false }

/-- A changelog document with no dated entries whose header block is five
lines long rather than the three lines `updateChangelog` assumes. -/
def longHeaderDoc : String :=
  "# Changelog\n\nIntro line one.\nIntro line two.\n"

/-! ## Lemmas about the string model -/

theorem hasSubList_of_isPrefix (pat cs : List Char) (h : pat.isPrefixOf cs = true) :
    hasSubList pat cs = true := by
  cases cs with
  | nil =>
      cases pat with
      | nil => rfl
      | cons c t => simp [List.isPrefixOf] at h
  | cons c t => simp [hasSubList, h]

theorem splitChars_ne_nil (sep : Char) (cs : List Char) : splitChars sep cs ≠ [] := by
  induction cs with
  | nil => simp [splitChars]
  | cons c t ih =>
      unfold splitChars
      split
      · simp
      · cases hsp : splitChars sep t with
        | nil => exact absurd hsp ih
        | cons a b => simp [hsp]

theorem splitChars_append_sep (sep : Char) (xs ys : List Char) :
    splitChars sep (xs ++ sep :: ys) = splitChars sep xs ++ splitChars sep ys := by
  induction xs with
  | nil => simp [splitChars]
  | cons c t ih =>
      by_cases h : c = sep
      · subst h
        simp [splitChars, ih]
      · have hb : (c == sep) = false := by simp [h]
        simp only [List.cons_append, splitChars, hb, Bool.false_eq_true, if_false, List.append_eq]
        rw [ih]
        cases hsp : splitChars sep t with
        | nil => exact absurd hsp (splitChars_ne_nil sep t)
        | cons a b => simp [hsp]

theorem splitChars_sepfree (sep : Char) (xs : List Char) (h : sep ∉ xs) :
    splitChars sep xs = [xs] := by
  induction xs with
  | nil => rfl
  | cons c t ih =>
      have hc : (c == sep) = false := by
        simp only [beq_eq_false_iff_ne, ne_eq]
        intro hh
        exact h (hh ▸ List.mem_cons_self c t)
      have ht : sep ∉ t := fun hh => h (List.mem_cons_of_mem c hh)
      simp only [splitChars, hc, Bool.false_eq_true, if_false, ih ht]

theorem mem_splitChars_sepfree (sep : Char) (cs : List Char) (x : List Char)
    (hx : x ∈ splitChars sep cs) : sep ∉ x := by
  induction cs generalizing x with
  | nil =>
      simp [splitChars] at hx
      subst hx
      simp
  | cons c t ih =>
      unfold splitChars at hx
      by_cases h : (c == sep) = true
      · rw [if_pos h] at hx
        rcases List.mem_cons.mp hx with h1 | h1
        · subst h1; simp
        · exact ih x h1
      · rw [if_neg h] at hx
        cases hsp : splitChars sep t with
        | nil => exact absurd hsp (splitChars_ne_nil sep t)
        | cons a b =>
            rw [hsp] at hx
            rcases List.mem_cons.mp hx with h1 | h1
            · subst h1
              intro hmem
              rcases List.mem_cons.mp hmem with h2 | h2
              · exact h (by simp [h2])
              · exact ih a (by rw [hsp]; exact List.mem_cons_self a b) h2
            · exact ih x (by rw [hsp]; exact List.mem_cons_of_mem a h1)

theorem interChars_cons₂ (sep : Char) (x y : List Char) (r : List (List Char)) :
    interChars sep (x :: y :: r) = x ++ sep :: interChars sep (y :: r) := rfl

theorem splitChars_interChars (sep : Char) (ls : List (List Char)) (h : ls ≠ []) :
    splitChars sep (interChars sep ls) = (ls.map (splitChars sep)).flatten := by
  induction ls with
  | nil => exact absurd rfl h
  | cons x xs ih =>
      cases xs with
      | nil => simp [interChars]
      | cons y r =>
          rw [interChars_cons₂, splitChars_append_sep, ih (by simp)]
          simp

theorem flatten_map_splitChars (sep : Char) (ls : List (List Char))
    (hall : ∀ x ∈ ls, sep ∉ x) :
    (ls.map (splitChars sep)).flatten = ls := by
  induction ls with
  | nil => rfl
  | cons x xs ih =>
      simp only [List.map_cons, List.flatten_cons]
      rw [splitChars_sepfree sep x (hall x (by simp)), ih (fun y hy => hall y (by simp [hy]))]
      rfl

theorem dropWhile_cons_neg (p : Char → Bool) (c : Char) (t : List Char) (h : p c = false) :
    List.dropWhile p (c :: t) = c :: t := by
  simp [List.dropWhile_cons, h]

theorem trimChars_eq_self : ∀ (cs : List Char),
    (∀ c, cs.head? = some c → isWsChar c = false) →
    (∀ c, cs.getLast? = some c → isWsChar c = false) →
    trimChars cs = cs
  | [], _, _ => rfl
  | c :: t, h1, h2 => by
      unfold trimChars
      rw [dropWhile_cons_neg _ _ _ (h1 c rfl)]
      cases hrev : (c :: t).reverse with
      | nil => simp at hrev
      | cons d r =>
          have hd : isWsChar d = false := by
            apply h2
            rw [← List.head?_reverse, hrev]
            rfl
          rw [dropWhile_cons_neg _ _ _ hd, ← hrev, List.reverse_reverse]

theorem dropWhile_eq_self_of_trim (cs : List Char) (h : trimChars cs = cs) :
    cs.dropWhile isWsChar = cs := by
  have hsuf : cs.dropWhile isWsChar <:+ cs := List.dropWhile_suffix _
  apply List.IsSuffix.eq_of_length hsuf
  have l1 : (cs.dropWhile isWsChar).length ≤ cs.length := hsuf.sublist.length_le
  have hsuf2 : ((cs.dropWhile isWsChar).reverse.dropWhile isWsChar)
      <:+ (cs.dropWhile isWsChar).reverse := List.dropWhile_suffix _
  have l2 : ((cs.dropWhile isWsChar).reverse.dropWhile isWsChar).length
      ≤ (cs.dropWhile isWsChar).length := by
    simpa using hsuf2.sublist.length_le
  have hlen : (trimChars cs).length = cs.length := by rw [h]
  have l3 : (trimChars cs).length
      = ((cs.dropWhile isWsChar).reverse.dropWhile isWsChar).length := by
    simp [trimChars]
  omega

theorem revDropWhile_eq_self_of_trim (cs : List Char) (h : trimChars cs = cs) :
    cs.reverse.dropWhile isWsChar = cs.reverse := by
  have h1 := dropWhile_eq_self_of_trim cs h
  have h2 : ((cs.dropWhile isWsChar).reverse.dropWhile isWsChar).reverse = cs := h
  rw [h1] at h2
  have := congrArg List.reverse h2
  simpa using this

theorem head_not_ws_of_trim (cs : List Char) (h : trimChars cs = cs) (c : Char)
    (hc : cs.head? = some c) : isWsChar c = false := by
  cases cs with
  | nil => cases hc
  | cons a t =>
      have ha : a = c := by simpa using hc
      subst ha
      have hd := dropWhile_eq_self_of_trim (a :: t) h
      by_contra hcon
      have hc' : isWsChar a = true := by simpa using hcon
      rw [List.dropWhile_cons, hc'] at hd
      simp only [if_true] at hd
      have hle := (List.dropWhile_suffix (l := t) isWsChar).sublist.length_le
      rw [hd] at hle
      simp at hle

theorem getLast_not_ws_of_trim (cs : List Char) (h : trimChars cs = cs) (d : Char)
    (hd : cs.getLast? = some d) : isWsChar d = false := by
  have h2 := revDropWhile_eq_self_of_trim cs h
  have hh : cs.reverse.head? = some d := by rw [List.head?_reverse]; exact hd
  cases hrev : cs.reverse with
  | nil => rw [hrev] at hh; cases hh
  | cons e r =>
      rw [hrev] at hh
      have he : e = d := by simpa using hh
      subst he
      by_contra hcon
      have hc' : isWsChar e = true := by simpa using hcon
      rw [hrev, List.dropWhile_cons, hc'] at h2
      simp only [if_true] at h2
      have hle := (List.dropWhile_suffix (l := r) isWsChar).sublist.length_le
      rw [h2] at hle
      simp at hle

theorem interChars_head? (sep : Char) (x : List Char) (xs : List (List Char)) (hx : x ≠ []) :
    (interChars sep (x :: xs)).head? = x.head? := by
  cases xs with
  | nil => rfl
  | cons y r =>
      rw [interChars_cons₂]
      cases x with
      | nil => exact absurd rfl hx
      | cons a b => rfl

theorem interChars_ne_nil (sep : Char) (x : List Char) (xs : List (List Char)) (hx : x ≠ []) :
    interChars sep (x :: xs) ≠ [] := by
  cases xs with
  | nil => simpa [interChars] using hx
  | cons y r =>
      rw [interChars_cons₂]
      cases x <;> simp

theorem interChars_getLast? (sep : Char) : ∀ (xs : List (List Char)) (x : List Char)
    (d : Char) (l : List Char),
    (x :: xs).getLast? = some l → l.getLast? = some d →
    (interChars sep (x :: xs)).getLast? = some d := by
  intro xs
  induction xs with
  | nil =>
      intro x d l h1 h2
      have hx : x = l := by simpa using h1
      subst hx
      simpa [interChars] using h2
  | cons y r ih =>
      intro x d l h1 h2
      rw [interChars_cons₂]
      have hlast : (y :: r).getLast? = some l := by
        simpa [List.getLast?_cons_cons] using h1
      have hind := ih y d l hlast h2
      have hne : interChars sep (y :: r) ≠ [] := by
        intro hz
        rw [hz] at hind
        cases hind
      rw [List.getLast?_append_of_ne_nil _ (by simp)]
      rw [show sep :: interChars sep (y :: r) = [sep] ++ interChars sep (y :: r) from rfl]
      rw [List.getLast?_append_of_ne_nil _ hne]
      exact hind

theorem interChars_trim_stable (ls : List (List Char)) (x : List Char)
    (hall : ∀ l ∈ x :: ls, l ≠ [] ∧ trimChars l = l) :
    trimChars (interChars '\n' (x :: ls)) = interChars '\n' (x :: ls) := by
  apply trimChars_eq_self
  · intro c hc
    rw [interChars_head? '\n' x ls (hall x (by simp)).1] at hc
    exact head_not_ws_of_trim x (hall x (by simp)).2 c hc
  · intro c hc
    have hne : (x :: ls) ≠ [] := by simp
    have hlmem : (x :: ls).getLast hne ∈ x :: ls := List.getLast_mem hne
    have hl? : (x :: ls).getLast? = some ((x :: ls).getLast hne) :=
      List.getLast?_eq_getLast _ hne
    have hlne := (hall _ hlmem).1
    have hd? : ((x :: ls).getLast hne).getLast?
        = some (((x :: ls).getLast hne).getLast hlne) := List.getLast?_eq_getLast _ hlne
    have hful := interChars_getLast? '\n' ls x (((x :: ls).getLast hne).getLast hlne) _ hl? hd?
    rw [hful] at hc
    have hcd : c = ((x :: ls).getLast hne).getLast hlne := by
      injection hc with h
      exact h.symm
    subst hcd
    exact getLast_not_ws_of_trim _ (hall _ hlmem).2 _ hd?

/-- Every piece produced by `jsSplit` splits to itself: it contains no
separator. -/
theorem jsSplit_piece_self (s : String) (sep : Char) (x : String) (hx : x ∈ jsSplit s sep) :
    jsSplit x sep = [x] := by
  unfold jsSplit at hx
  rcases List.mem_map.mp hx with ⟨p, hp, hpx⟩
  subst hpx
  have hfree := mem_splitChars_sepfree sep s.data p hp
  unfold jsSplit
  rw [show (String.mk p).data = p from rfl, splitChars_sepfree sep p hfree]
  rfl

/-- Splitting a newline-join re-splits each joined string. -/
theorem jsSplit_joinNl (ls : List String) (h : ls ≠ []) :
    jsSplit (joinNl ls) '\n' = (ls.map (fun l => jsSplit l '\n')).flatten := by
  unfold jsSplit joinNl
  rw [show (String.mk (interChars '\n' (ls.map String.data))).data
      = interChars '\n' (ls.map String.data) from rfl]
  rw [splitChars_interChars '\n' (ls.map String.data) (by simpa using h)]
  simp only [List.map_flatten, List.map_map]
  rfl

theorem flatten_map_singletons (ls : List String)
    (hall : ∀ x ∈ ls, jsSplit x '\n' = [x]) :
    (ls.map (fun l => jsSplit l '\n')).flatten = ls := by
  induction ls with
  | nil => rfl
  | cons x xs ih =>
      simp only [List.map_cons, List.flatten_cons]
      rw [hall x (by simp), ih (fun y hy => hall y (by simp [hy]))]
      rfl

theorem cleanLine_spec (s : String) (h : cleanLine s = true) :
    s.data ≠ [] ∧ trimChars s.data = s.data ∧ '\n' ∉ s.data := by
  unfold cleanLine at h
  simp only [Bool.and_eq_true, Bool.not_eq_true', beq_iff_eq] at h
  refine ⟨?_, h.1.2, ?_⟩
  · intro hz
    rw [hz] at h
    simpa using h.1.1
  · intro hmem
    have hcontains : s.data.contains '\n' = true := by
      simp only [List.contains]
      exact List.elem_eq_true_of_mem hmem
    rw [h.2] at hcontains
    cases hcontains

theorem string_mk_beq_empty (X : List Char) (h : X ≠ []) : (String.mk X == "") = false := by
  rw [beq_eq_false_iff_ne]
  intro hc
  apply h
  have := congrArg String.data hc
  simpa using this

theorem getCommitsSinceLastTag_fails (repo : GitRepo) (h : repo.logFails = true) :
    getCommitsSinceLastTag repo = [] := by
  simp [getCommitsSinceLastTag, runGitLog, h]

theorem gitLogSelect_subset (repo : GitRepo) (c : CommitRec)
    (hc : c ∈ gitLogSelect repo false) : c ∈ repo.commits := by
  unfold gitLogSelect at hc
  cases htc : repo.tagCount with
  | some n =>
      rw [htc] at hc
      simp only [Bool.false_eq_true, if_false] at hc
      exact List.take_subset n _ hc
  | none =>
      rw [htc] at hc
      simp only [Bool.false_eq_true, if_false] at hc
      exact List.take_subset 10 _ hc

theorem getCommitsSinceLastTag_ok (repo : GitRepo) (h : repo.logFails = false)
    (hclean : ∀ c ∈ repo.commits, cleanLine c.line = true) :
    getCommitsSinceLastTag repo = (gitLogSelect repo false).map CommitRec.line := by
  have hcl : ∀ l ∈ (gitLogSelect repo false).map CommitRec.line,
      l.data ≠ [] ∧ trimChars l.data = l.data ∧ '\n' ∉ l.data := by
    intro l hl
    rcases List.mem_map.mp hl with ⟨c, hc, rfl⟩
    exact cleanLine_spec _ (hclean c (gitLogSelect_subset repo c hc))
  simp only [getCommitsSinceLastTag, runGitLog, h, Bool.false_eq_true, if_false]
  cases hsel : gitLogSelect repo false with
  | nil => simp [jsTrim, interChars, trimChars]
  | cons c0 rest =>
      rw [hsel] at hcl
      have hds : (c0 :: rest).map (fun c => c.line.data)
          = ((c0 :: rest).map CommitRec.line).map String.data := by
        simp [List.map_map]
      rw [hds]
      set L := (c0 :: rest).map CommitRec.line with hL
      have hLcons : L = c0.line :: rest.map CommitRec.line := by simp [hL]
      have hall : ∀ l ∈ L.map String.data, l ≠ [] ∧ trimChars l = l := by
        intro l hl
        rcases List.mem_map.mp hl with ⟨x, hx, rfl⟩
        exact ⟨(hcl x hx).1, (hcl x hx).2.1⟩
      have hstable : trimChars (interChars '\n' (L.map String.data))
          = interChars '\n' (L.map String.data) := by
        rw [hLcons]
        exact interChars_trim_stable _ _ (by rw [← List.map_cons, ← hLcons]; exact hall)
      have htrim : jsTrim (String.mk (interChars '\n' (L.map String.data)))
          = String.mk (interChars '\n' (L.map String.data)) := by
        unfold jsTrim
        rw [show (String.mk (interChars '\n' (L.map String.data))).data
            = interChars '\n' (L.map String.data) from rfl, hstable]
      rw [htrim]
      have hne : interChars '\n' (L.map String.data) ≠ [] := by
        rw [hLcons]
        apply interChars_ne_nil
        exact (hcl c0.line (by rw [hLcons]; simp)).1
      rw [string_mk_beq_empty _ hne]
      simp only [Bool.false_eq_true, if_false]
      have hsplit : jsSplit (String.mk (interChars '\n' (L.map String.data))) '\n' = L := by
        unfold jsSplit
        rw [show (String.mk (interChars '\n' (L.map String.data))).data
            = interChars '\n' (L.map String.data) from rfl]
        rw [splitChars_interChars '\n' (L.map String.data) (by rw [hLcons]; simp)]
        rw [flatten_map_splitChars '\n' (L.map String.data) (by
          intro x hx
          rcases List.mem_map.mp hx with ⟨y, hy, rfl⟩
          exact (hcl y hy).2.2)]
        rw [List.map_map]
        have hid : (String.mk ∘ String.data) = id := funext fun s => rfl
        rw [hid, List.map_id]
      rw [hsplit]
      apply List.filter_eq_self.mpr
      intro l hl
      have hfacts := hcl l hl
      have htl : jsTrim l = l := by
        unfold jsTrim
        rw [hfacts.2.1]
      have hbe : (l == "") = false := by
        rw [beq_eq_false_iff_ne]
        intro hc
        apply hfacts.1
        have := congrArg String.data hc
        simpa using this
      rw [htl, hbe]
      rfl

theorem any_or_split (l : List String) (p q : String → Bool) :
    l.any (fun a => p a || q a) = (l.any p || l.any q) := by
  induction l with
  | nil => rfl
  | cons a t ih =>
      simp only [List.any_cons, ih]
      cases p a <;> cases q a <;> simp

/-! ## Claim theorems -/

/-- Claim C1: for every sequence of commit records, `analyzeCommits`
returns `"minor"` exactly when some commit is breaking (its lowercased
message contains `"breaking change"` or `"!:"`) or some commit is a
feature (its lowercased message begins with `"feat:"` or `"feat("`), and
returns `"patch"` otherwise, whether or not any commit is a fix; in
particular it never returns `"major"`. -/
theorem analyzeCommits_minor_or_patch (commits : List String) :
    analyzeCommits commits =
      (if commits.any (fun c => isBreakingMsg c || isFeatureMsg c) then "minor" else "patch")
    ∧ analyzeCommits commits ≠ "major" := by
  have hmain : analyzeCommits commits =
      (if commits.any (fun c => isBreakingMsg c || isFeatureMsg c) then "minor" else "patch") := by
    show (if commits.any isBreakingMsg || commits.any isFeatureMsg then "minor"
          else if commits.any isFixMsg then "patch" else "patch") = _
    rw [any_or_split, ite_self]
  refine ⟨hmain, ?_⟩
  rcases Bool.eq_false_or_eq_true (commits.any fun c => isBreakingMsg c || isFeatureMsg c)
      with h | h
  · rw [hmain, if_pos h]
    decide
  · rw [hmain, if_neg (by simp [h])]
    decide

/-- Claim C2: for every version string whose three components parse to the
integers `maj`, `minr`, `pat`, every bump kind in `{"minor", "patch"}`
and every policy, `calculateNewVersion` clamps to
`{maxMajor}.{defaultMinor}.0` when the major exceeds the ceiling, snaps
to `{maxMajor}.{defaultMinor}.{pat}` when the major is below it
(regardless of the bump kind), and otherwise applies the bump:
`minor` increments the minor and zeroes the patch, `patch` increments the
patch. -/
theorem calculateNewVersion_policy_spec (v bt : String) (c : Constraints)
    (maj minr pat : Int)
    (h0 : numCompV v 0 = JsNum.num maj) (h1 : numCompV v 1 = JsNum.num minr)
    (h2 : numCompV v 2 = JsNum.num pat)
    (hbt : bt = "minor" ∨ bt = "patch") :
    calculateNewVersion v bt c =
      (if c.maxMajor < maj then
        toString c.maxMajor ++ "." ++ toString c.defaultMinor ++ ".0"
      else if maj < c.maxMajor then
        toString c.maxMajor ++ "." ++ toString c.defaultMinor ++ "." ++ toString pat
      else if bt = "minor" then toString maj ++ "." ++ toString (minr + 1) ++ ".0"
      else toString maj ++ "." ++ toString minr ++ "." ++ toString (pat + 1)) := by
  unfold calculateNewVersion
  rw [h0, h1, h2]
  simp only [JsNum.gtInt, JsNum.ltInt, JsNum.addInt, JsNum.render, decide_eq_true_eq]
  rcases hbt with rfl | rfl
  · simp
  · simp

/-- Claim C2 witness: on `main`'s policy, current version `16.4.9` with a
`minor` bump is clamped down to `15.2.0`. -/
theorem calculateNewVersion_policy_spec_instance :
    numCompV "16.4.9" 0 = JsNum.num 16 ∧ numCompV "16.4.9" 1 = JsNum.num 4 ∧
    numCompV "16.4.9" 2 = JsNum.num 9 ∧
    calculateNewVersion "16.4.9" "minor" { maxMajor := 15, defaultMinor := 2 } = "15.2.0" := by
  refine ⟨rfl, rfl, rfl, ?_⟩
  have h := calculateNewVersion_policy_spec "16.4.9" "minor"
    { maxMajor := 15, defaultMinor := 2 } 16 4 9 rfl rfl rfl (Or.inl rfl)
  rw [h]
  decide

/-- Claim C3: end-to-end scenario on branch `main` with current manifest
version `15.2.5` and the commits `fix: a`, `feat: b` since the last tag:
the commits are collected, classified as a `minor` bump, and both
manifests are rewritten to `15.3.0` with exit status 0. -/
theorem mainBranch_fix_feat_bumps_to_15_3_0 :
    getCommitsSinceLastTag mainFixFeatRepo = ["fix: a", "feat: b"]
    ∧ analyzeCommits (getCommitsSinceLastTag mainFixFeatRepo) = "minor"
    ∧ safeBumpVersion "main" mainFixFeatRepo
        { rootVersion := "15.2.5", libVersion := some "15.2.5" } =
      { manifests := { rootVersion := "15.3.0", libVersion := some "15.3.0" },
        exitCode := 0 } :=
  ⟨rfl, rfl, rfl⟩

/-- Claim C4 counterexample: the Bumper's `git log` command carries no
`--no-merges` flag, so merge commits are NOT excluded from its listing:
in a repository whose only commit after the most recent tag is a merge
commit, `getCommitsSinceLastTag` returns exactly that merge commit's
line, contradicting the claimed exclusion. -/
theorem bumper_lists_merge_commits :
    getCommitsSinceLastTag mergeOnlyRepo = ["abc123 Merge branch dev"]
    ∧ mergeOnlyRepo.commits.all (fun c => c.isMerge) = true :=
  ⟨rfl, rfl⟩

/-- Claim C4 (amended): for well-formed log lines, the Bumper's
`getCommitsSinceLastTag` lists the commits strictly after the most recent
tag (or the most recent 10 commits when no tag exists) WITHOUT excluding
merge commits (its `git log` invocation lacks `--no-merges`, unlike the
Changelog Generator's), and it returns the empty sequence rather than
raising when the version-control query fails. -/
theorem getCommitsSinceLastTag_spec (repo : GitRepo)
    (hclean : ∀ c ∈ repo.commits, cleanLine c.line = true) :
    (repo.logFails = true → getCommitsSinceLastTag repo = [])
    ∧ (repo.logFails = false →
        getCommitsSinceLastTag repo =
          match repo.tagCount with
          | some n => (repo.commits.take n).map CommitRec.line
          | none => (repo.commits.take 10).map CommitRec.line) := by
  constructor
  · exact getCommitsSinceLastTag_fails repo
  · intro h
    rw [getCommitsSinceLastTag_ok repo h hclean]
    unfold gitLogSelect
    cases repo.tagCount <;> simp

/-- Claim C4 witness: on the two-commit repository the hypotheses hold
and the listing is exactly the two commit lines after the tag. -/
theorem getCommitsSinceLastTag_spec_instance :
    (∀ c ∈ mainFixFeatRepo.commits, cleanLine c.line = true)
    ∧ mainFixFeatRepo.logFails = false
    ∧ getCommitsSinceLastTag mainFixFeatRepo = ["fix: a", "feat: b"] := by
  refine ⟨by decide, rfl, ?_⟩
  exact (getCommitsSinceLastTag_spec mainFixFeatRepo (by decide)).2 rfl

theorem categorizeCommits_go (commits : List String) (acc : Categories) :
    (commits.foldl categorizeStep acc).breaking
        = acc.breaking ++ commits.filter genIsBreaking
    ∧ (commits.foldl categorizeStep acc).features
        = acc.features ++ commits.filter (fun c => !genIsBreaking c && genIsFeature c)
    ∧ (commits.foldl categorizeStep acc).fixes
        = acc.fixes ++ commits.filter
            (fun c => !genIsBreaking c && !genIsFeature c && genIsFix c)
    ∧ (commits.foldl categorizeStep acc).other
        = acc.other ++ commits.filter
            (fun c => !genIsBreaking c && !genIsFeature c && !genIsFix c) := by
  induction commits generalizing acc with
  | nil => simp
  | cons c t ih =>
      rcases ih (categorizeStep acc c) with ⟨e1, e2, e3, e4⟩
      simp only [List.foldl_cons, List.filter_cons]
      by_cases hb : genIsBreaking c
      · simp only [categorizeStep, hb, if_true] at e1 e2 e3 e4
        simp [categorizeStep, e1, e2, e3, e4, hb]
      · by_cases hf : genIsFeature c
        · simp only [categorizeStep, hb, hf, Bool.false_eq_true, if_false, if_true]
            at e1 e2 e3 e4
          simp [categorizeStep, e1, e2, e3, e4, hb, hf]
        · by_cases hx : genIsFix c
          · simp only [categorizeStep, hb, hf, hx, Bool.false_eq_true, if_false, if_true]
              at e1 e2 e3 e4
            simp [categorizeStep, e1, e2, e3, e4, hb, hf, hx]
          · simp only [categorizeStep, hb, hf, hx, Bool.false_eq_true, if_false]
              at e1 e2 e3 e4
            simp [categorizeStep, e1, e2, e3, e4, hb, hf, hx]

/-- Claim C5 counterexample: the Generator's feature test is substring
containment while the Bumper's is a prefix test, so they disagree: the
line `abc123 feat: x` (a real `--oneline` line, hash first) lands in the
Generator's features bucket although the Bumper's rules mark it neither a
feature (no `feat:` prefix) nor breaking, refuting "in the features
bucket exactly when they mark it a feature". -/
theorem categorize_feature_containment_cex :
    (categorizeCommits ["abc123 feat: x"]).features = ["abc123 feat: x"]
    ∧ isFeatureMsg "abc123 feat: x" = false
    ∧ isBreakingMsg "abc123 feat: x" = false :=
  ⟨rfl, rfl, rfl⟩

/-- Claim C5 (amended): the Generator classifies each commit into exactly
one bucket with the priority breaking > feature > fix > other; its
breaking test agrees exactly with the Bumper's breaking rule (so a
message carrying both a `feat:` prefix and `breaking change` text is
bucketed as breaking, never feature); but its feature and fix tests use
case-insensitive substring containment of `feat:`/`feat(` (resp.
`fix:`/`fix(`), which is implied by — but weaker than — the Bumper's
prefix tests. -/
theorem categorizeCommits_spec (commits : List String) :
    (categorizeCommits commits).breaking = commits.filter genIsBreaking
    ∧ (categorizeCommits commits).features
        = commits.filter (fun c => !genIsBreaking c && genIsFeature c)
    ∧ (categorizeCommits commits).fixes
        = commits.filter (fun c => !genIsBreaking c && !genIsFeature c && genIsFix c)
    ∧ (categorizeCommits commits).other
        = commits.filter (fun c => !genIsBreaking c && !genIsFeature c && !genIsFix c)
    ∧ (∀ c, genIsBreaking c = isBreakingMsg c)
    ∧ (∀ c, isFeatureMsg c = true → genIsFeature c = true)
    ∧ (∀ c, isFixMsg c = true → genIsFix c = true) := by
  have hgo := categorizeCommits_go commits { breaking := [], features := [], fixes := [], other := [] }
  refine ⟨by simpa using hgo.1, by simpa using hgo.2.1, by simpa using hgo.2.2.1,
      by simpa using hgo.2.2.2, fun c => rfl, ?_, ?_⟩
  · intro c h
    unfold isFeatureMsg at h
    unfold genIsFeature
    rcases Bool.or_eq_true_iff.mp h with h1 | h1
    · exact Bool.or_eq_true_iff.mpr (Or.inl (hasSubList_of_isPrefix _ _ h1))
    · exact Bool.or_eq_true_iff.mpr (Or.inr (hasSubList_of_isPrefix _ _ h1))
  · intro c h
    unfold isFixMsg at h
    unfold genIsFix
    rcases Bool.or_eq_true_iff.mp h with h1 | h1
    · exact Bool.or_eq_true_iff.mpr (Or.inl (hasSubList_of_isPrefix _ _ h1))
    · exact Bool.or_eq_true_iff.mpr (Or.inr (hasSubList_of_isPrefix _ _ h1))

/-- Claim C5 witness: on a concrete commit list the bucket equations and
the prefix-implies-containment implication hold. -/
theorem categorizeCommits_spec_instance :
    (categorizeCommits ["feat: a", "fix: b"]).features = ["feat: a"]
    ∧ genIsFeature "feat: a" = true := by
  have h := categorizeCommits_spec ["feat: a", "fix: b"]
  refine ⟨?_, h.2.2.2.2.2.1 "feat: a" rfl⟩
  rw [h.2.1]
  rfl

theorem major_of_fifteen_two (t : String) :
    parseIntOr0 (jsSplit ("15.2." ++ t) '.')[0]? = 15 := rfl

theorem constraints_none_iff (b : String) :
    getVersionConstraints b = none ↔ (b == "main") = false := by
  cases h : (b == "main") <;> simp [getVersionConstraints, h]

theorem updatePackageVersion_main_rewrite (st : ManifestState)
    (h : parseIntOr0 (jsSplit st.rootVersion '.')[0]? ≠ 15) :
    updatePackageVersion "main" st =
      { rootVersion := "15.2." ++ toString (parseIntOr0 (jsSplit st.rootVersion '.')[2]?),
        libVersion := st.libVersion.map
          (fun _ => "15.2." ++ toString (parseIntOr0 (jsSplit st.rootVersion '.')[2]?)) } := by
  simp only [updatePackageVersion, beq_self_eq_true, if_true]
  rw [if_pos h]
  have hne : (toString (15 : Int) ++ ".2."
      ++ toString (parseIntOr0 (jsSplit st.rootVersion '.')[2]?)) ≠ st.rootVersion := by
    intro hc
    apply h
    rw [← hc]
    exact major_of_fifteen_two _
  rw [if_pos hne]
  rfl

theorem updatePackageVersion_main_keep (st : ManifestState)
    (h : parseIntOr0 (jsSplit st.rootVersion '.')[0]? = 15) :
    updatePackageVersion "main" st = st := by
  simp only [updatePackageVersion, beq_self_eq_true, if_true]
  rw [if_neg (by simp [h])]

theorem updatePackageVersion_other (b : String) (st : ManifestState)
    (hb : (b == "main") = false) : updatePackageVersion b st = st := by
  simp only [updatePackageVersion, hb, Bool.false_eq_true, if_false]

theorem validate_eq_one_iff (branch v : String) :
    validateVersionForBranch branch v = 1 ↔
      branch = "main" ∧ parseIntOr0 (jsSplit v '.')[0]? ≠ 15 := by
  unfold validateVersionForBranch
  by_cases hb : branch = "main"
  · subst hb
    by_cases hm : parseIntOr0 (jsSplit v '.')[0]? = 15
    · simp [hm]
    · simp [hm]
  · simp [hb]

theorem validate_values (branch v : String) :
    validateVersionForBranch branch v = 0 ∨ validateVersionForBranch branch v = 1 := by
  by_cases h : (branch == "main" && !(parseIntOr0 (jsSplit v '.')[0]? == 15)) = true
  · right
    simp [validateVersionForBranch, h]
  · left
    simp only [Bool.not_eq_true] at h
    simp [validateVersionForBranch, h]

theorem validate_no_policy (branch v : String) (hb : (branch == "main") = false) :
    validateVersionForBranch branch v = 0 := by
  unfold validateVersionForBranch
  simp [hb]

theorem constraints_isSome_iff (b : String) :
    (getVersionConstraints b).isSome = true ↔ b = "main" := by
  cases h : (b == "main") with
  | false =>
      have hb : ¬ b = "main" := by simpa using h
      simp [getVersionConstraints, h, hb]
  | true =>
      have hb : b = "main" := by simpa using h
      simp [getVersionConstraints, h, hb]

/-- Claim C6: `updatePackageVersion` on branch `main` rewrites every
manifest whose parsed major version differs from 15 to
`15.2.{currentPatch}` (minor reset to the policy default 2, parsed patch
preserved) in the root manifest and, when present, the library manifest;
a manifest whose major is already 15, and every branch with no policy,
leave the manifests unchanged. -/
theorem updatePackageVersion_spec (st : ManifestState) (b : String) :
    (parseIntOr0 (jsSplit st.rootVersion '.')[0]? ≠ 15 →
      updatePackageVersion "main" st =
        { rootVersion := "15.2." ++ toString (parseIntOr0 (jsSplit st.rootVersion '.')[2]?),
          libVersion := st.libVersion.map
            (fun _ => "15.2." ++ toString (parseIntOr0 (jsSplit st.rootVersion '.')[2]?)) })
    ∧ (parseIntOr0 (jsSplit st.rootVersion '.')[0]? = 15 →
        updatePackageVersion "main" st = st)
    ∧ (getVersionConstraints b = none → updatePackageVersion b st = st) :=
  ⟨updatePackageVersion_main_rewrite st, updatePackageVersion_main_keep st,
   fun hb => updatePackageVersion_other b st ((constraints_none_iff b).mp hb)⟩

/-- Claim C6 witness: `14.7.3` on `main` is rewritten to `15.2.3` in both
manifests, and the policy-free branch `develop` changes nothing. -/
theorem updatePackageVersion_spec_instance :
    parseIntOr0 (jsSplit "14.7.3" '.')[0]? ≠ 15
    ∧ updatePackageVersion "main" { rootVersion := "14.7.3", libVersion := some "14.7.3" } =
        { rootVersion := "15.2.3", libVersion := some "15.2.3" }
    ∧ getVersionConstraints "develop" = none
    ∧ updatePackageVersion "develop" { rootVersion := "14.7.3", libVersion := none } =
        { rootVersion := "14.7.3", libVersion := none } := by
  refine ⟨by decide, ?_, rfl, ?_⟩
  · have h1 := (updatePackageVersion_spec
      { rootVersion := "14.7.3", libVersion := some "14.7.3" } "develop").1 (by decide)
    rw [h1]
    decide
  · exact (updatePackageVersion_spec
      { rootVersion := "14.7.3", libVersion := none } "develop").2.2 rfl

/-- Claim C7: `validateVersionForBranch` exits non-zero exactly when the
branch has a defined policy — equivalently, is `main` — and the manifest's
parsed major version differs from 15; its exit status is always 0 or 1,
and every branch with no policy exits 0 for any manifest version (the
function performs no writes). -/
theorem validateVersionForBranch_spec (branch v : String) :
    (validateVersionForBranch branch v = 1 ↔
      branch = "main" ∧ parseIntOr0 (jsSplit v '.')[0]? ≠ 15)
    ∧ (validateVersionForBranch branch v = 0 ∨ validateVersionForBranch branch v = 1)
    ∧ (getVersionConstraints branch = none → validateVersionForBranch branch v = 0)
    ∧ ((getVersionConstraints branch).isSome = true ↔ branch = "main") :=
  ⟨validate_eq_one_iff branch v, validate_values branch v,
   fun hb => validate_no_policy branch v ((constraints_none_iff branch).mp hb),
   constraints_isSome_iff branch⟩

/-- Claim C7 witness: the policy-free branch `release-x` validates with
exit 0, and `main` with major 14 validates with exit 1. -/
theorem validateVersionForBranch_spec_instance :
    getVersionConstraints "release-x" = none
    ∧ validateVersionForBranch "release-x" "3.0.0" = 0
    ∧ validateVersionForBranch "main" "14.0.0" = 1 := by
  refine ⟨rfl, (validateVersionForBranch_spec "release-x" "3.0.0").2.2.1 rfl, ?_⟩
  exact (validateVersionForBranch_spec "main" "14.0.0").1.mpr ⟨rfl, by decide⟩

/-- Claim C10: version parsing in the Resolver is total and never raises:
every dot-separated component on which `parseInt` fails (including a
missing component) is treated as 0, so on branch `main` a version whose
major component does not parse is rewritten by `update` to
`15.2.{parsed patch}` and rejected by `validate` (exit 1) rather than
failing with a parse error. -/
theorem resolver_parse_total_spec (st : ManifestState) (v : String) :
    (∀ i : Nat, ((jsSplit v '.')[i]?.bind jsParseInt) = none →
        parseIntOr0 (jsSplit v '.')[i]? = 0)
    ∧ (((jsSplit st.rootVersion '.')[0]?.bind jsParseInt) = none →
        updatePackageVersion "main" st =
          { rootVersion := "15.2." ++ toString (parseIntOr0 (jsSplit st.rootVersion '.')[2]?),
            libVersion := st.libVersion.map
              (fun _ => "15.2." ++ toString (parseIntOr0 (jsSplit st.rootVersion '.')[2]?)) })
    ∧ (((jsSplit v '.')[0]?.bind jsParseInt) = none →
        validateVersionForBranch "main" v = 1) := by
  have hzero : ∀ (w : String) (i : Nat), ((jsSplit w '.')[i]?.bind jsParseInt) = none →
      parseIntOr0 (jsSplit w '.')[i]? = 0 := by
    intro w i h
    cases hx : (jsSplit w '.')[i]? with
    | none => rfl
    | some s =>
        rw [hx] at h
        simp only [Option.some_bind] at h
        simp [parseIntOr0, h]
  refine ⟨hzero v, ?_, ?_⟩
  · intro h
    apply updatePackageVersion_main_rewrite
    rw [hzero st.rootVersion 0 h]
    decide
  · intro h
    exact (validate_eq_one_iff "main" v).mpr ⟨rfl, by rw [hzero v 0 h]; decide⟩

/-- Claim C10 witness: the fully malformed version `x.y.z` parses to
majors/patches of 0, is rewritten to `15.2.0` by `update` and rejected by
`validate` on `main`. -/
theorem resolver_parse_total_spec_instance :
    ((jsSplit "x.y.z" '.')[0]?.bind jsParseInt) = none
    ∧ parseIntOr0 (jsSplit "x.y.z" '.')[0]? = 0
    ∧ updatePackageVersion "main" { rootVersion := "x.y.z", libVersion := none } =
        { rootVersion := "15.2.0", libVersion := none }
    ∧ validateVersionForBranch "main" "x.y.z" = 1 := by
  have h := resolver_parse_total_spec { rootVersion := "x.y.z", libVersion := none } "x.y.z"
  refine ⟨rfl, h.1 0 rfl, ?_, h.2.2 rfl⟩
  have h2 := h.2.1 rfl
  rw [h2]
  decide

/-- Claim C8: on every branch with a defined policy and for every current
manifest state, if zero commits are found since the last tag,
`safeBumpVersion` leaves both manifests completely unchanged and exits
with status 0. -/
theorem safeBumpVersion_noop (branch : String) (repo : GitRepo) (st : ManifestState)
    (c : Constraints) (hc : getVersionConstraints branch = some c)
    (hz : getCommitsSinceLastTag repo = []) :
    safeBumpVersion branch repo st = { manifests := st, exitCode := 0 } := by
  unfold safeBumpVersion
  rw [hc, hz]
  rfl

/-- Claim C8 witness: on `main` with an untagged empty log, the manifests
at `15.2.5` are untouched and the exit status is 0. -/
theorem safeBumpVersion_noop_instance :
    getVersionConstraints "main" = some { maxMajor := 15, defaultMinor := 2 }
    ∧ getCommitsSinceLastTag { commits := [], tagCount := none, logFails := false } = []
    ∧ safeBumpVersion "main" { commits := [], tagCount := none, logFails := false }
        { rootVersion := "15.2.5", libVersion := some "15.2.5" } =
      { manifests := { rootVersion := "15.2.5", libVersion := some "15.2.5" },
        exitCode := 0 } :=
  ⟨rfl, rfl, safeBumpVersion_noop "main" _ _ _ rfl rfl⟩

theorem findEntryIdx_lt_length : ∀ (L : List String) (k : Nat),
    findEntryIdx L = some k → k < L.length := by
  intro L
  induction L with
  | nil => intro k h; cases h
  | cons l ls ih =>
      intro k h
      unfold findEntryIdx at h
      by_cases he : isEntryStart l = true
      · rw [if_pos he] at h
        injection h with h
        simp [← h]
      · rw [if_neg he] at h
        cases hf : findEntryIdx ls with
        | none => rw [hf] at h; cases h
        | some j =>
            rw [hf] at h
            simp only [Option.map_some'] at h
            injection h with h
            have hj := ih j hf
            simp only [List.length_cons]
            omega

theorem updateChangelogLines_found (L : List String) (e : String) (k : Nat)
    (hk : findEntryIdx L = some k) (hpos : 0 < k) :
    updateChangelogLines e L = L.take k ++ [jsTrim e, ""] ++ L.drop k := by
  have hlen := findEntryIdx_lt_length L k hk
  simp only [updateChangelogLines, headerEndIndex, hk]
  have h0 : ¬ ((k : Int) = 0) := by
    simp only [Int.natCast_eq_zero]
    omega
  rw [if_neg h0]
  have hcond : ¬ (((k : Int)) = -1 ∨ ((k : Int)) = (L.length : Int)) := by
    push_neg
    constructor
    · omega
    · omega
  rw [if_neg hcond]
  simp

theorem updateChangelog_existing (C e : String) (k : Nat)
    (hk : findEntryIdx (jsSplit C '\n') = some k) (hpos : 0 < k) :
    jsSplit (updateChangelog e (some C)) '\n' =
      (jsSplit C '\n').take k ++ jsSplit (jsTrim e) '\n' ++ [""]
        ++ (jsSplit C '\n').drop k := by
  unfold updateChangelog
  simp only [Option.getD_some]
  rw [updateChangelogLines_found _ _ _ hk hpos]
  rw [jsSplit_joinNl _ (by simp)]
  have hsingle : ∀ x ∈ jsSplit C '\n', jsSplit x '\n' = [x] := jsSplit_piece_self C '\n'
  simp only [List.map_append, List.flatten_append]
  rw [flatten_map_singletons ((jsSplit C '\n').take k)
    (fun x hx => hsingle x (List.take_subset _ _ hx))]
  rw [flatten_map_singletons ((jsSplit C '\n').drop k)
    (fun x hx => hsingle x (List.drop_subset _ _ hx))]
  have hemp : jsSplit "" '\n' = [""] := rfl
  simp [hemp, List.append_assoc]

theorem updateChangelog_fresh (e : String) :
    jsSplit (updateChangelog e none) '\n' =
      ["# Changelog", "",
       "All notable changes to this project will be documented in this file.", ""]
        ++ jsSplit (jsTrim e) '\n' ++ ["", "", ""] := by
  unfold updateChangelog
  simp only [Option.getD_none]
  have hupd : updateChangelogLines e (jsSplit defaultChangelogHeader '\n') =
      ["# Changelog", "",
       "All notable changes to this project will be documented in this file."]
        ++ [""] ++ [jsTrim e] ++ [""] ++ ["", ""] := by
    have hhei : headerEndIndex (jsSplit defaultChangelogHeader '\n') = -1 := rfl
    unfold updateChangelogLines
    rw [hhei]
    rw [if_pos (Or.inl rfl)]
    rfl
  rw [hupd]
  rw [jsSplit_joinNl _ (by simp)]
  have h1 : jsSplit "# Changelog" '\n' = ["# Changelog"] := rfl
  have h2 : jsSplit "" '\n' = [""] := rfl
  have h3 : jsSplit "All notable changes to this project will be documented in this file." '\n'
      = ["All notable changes to this project will be documented in this file."] := rfl
  simp [h1, h2, h3]


theorem splitChars_head_isPrefix (sep : Char) : ∀ (pat cs : List Char),
    pat.isPrefixOf cs = true → sep ∉ pat →
    ∃ h t, splitChars sep cs = h :: t ∧ pat.isPrefixOf h = true := by
  intro pat
  induction pat with
  | nil =>
      intro cs _ _
      cases hsp : splitChars sep cs with
      | nil => exact absurd hsp (splitChars_ne_nil sep cs)
      | cons h t => exact ⟨h, t, rfl, by simp [List.isPrefixOf]⟩
  | cons p ps ih =>
      intro cs hp hsep
      cases cs with
      | nil => simp [List.isPrefixOf] at hp
      | cons c cs' =>
          have hcons : (p :: ps).isPrefixOf (c :: cs') = (p == c && ps.isPrefixOf cs') := by
            simp [List.isPrefixOf]
          rw [hcons] at hp
          simp only [Bool.and_eq_true] at hp
          have hpc : p = c := by simpa using hp.1
          have hps : ps.isPrefixOf cs' = true := hp.2
          have hpsep : sep ∉ ps := fun hm => hsep (List.mem_cons_of_mem _ hm)
          have hcne : (c == sep) = false := by
            rw [beq_eq_false_iff_ne]
            intro hcs
            exact hsep (by rw [hpc, hcs]; exact List.mem_cons_self _ _)
          obtain ⟨h, t, hsp, hpref⟩ := ih cs' hps hpsep
          refine ⟨c :: h, t, ?_, ?_⟩
          · simp only [splitChars, hcne, Bool.false_eq_true, if_false, hsp]
          · subst hpc
            have hcons2 : (p :: ps).isPrefixOf (p :: h) = (p == p && ps.isPrefixOf h) := by
              simp [List.isPrefixOf]
            rw [hcons2]
            simp [hpref]

theorem findEntryIdx_take_none : ∀ (L : List String) (k : Nat),
    findEntryIdx L = some k → ∀ x ∈ L.take k, isEntryStart x = false := by
  intro L
  induction L with
  | nil => intro k h x hx; cases h
  | cons l ls ih =>
      intro k h x hx
      unfold findEntryIdx at h
      by_cases he : isEntryStart l = true
      · rw [if_pos he] at h
        injection h with h
        rw [← h] at hx
        simp at hx
      · rw [if_neg he] at h
        cases hf : findEntryIdx ls with
        | none => rw [hf] at h; cases h
        | some j =>
            rw [hf] at h
            simp only [Option.map_some'] at h
            injection h with h
            rw [← h] at hx
            rw [List.take_succ_cons] at hx
            rcases List.mem_cons.mp hx with rfl | hx'
            · simpa using he
            · exact ih j hf x hx'

theorem findEntryIdx_append_entry : ∀ (A : List String) (h : String) (rest : List String),
    (∀ x ∈ A, isEntryStart x = false) → isEntryStart h = true →
    findEntryIdx (A ++ h :: rest) = some A.length := by
  intro A
  induction A with
  | nil =>
      intro h rest _ hh
      simp [findEntryIdx, hh]
  | cons a A' ih =>
      intro h rest hA hh
      have ha : isEntryStart a = false := hA a (by simp)
      simp only [List.cons_append, findEntryIdx, ha, Bool.false_eq_true, if_false,
        List.append_eq]
      rw [ih h rest (fun x hx => hA x (by simp [hx])) hh]
      simp

/-- A string that starts with `## [` splits into lines whose first line
again starts with `## [`. -/
theorem jsSplit_head_entry (s : String) (hs : jsStartsWith s "## [" = true) :
    ∃ h t, jsSplit s '\n' = h :: t ∧ isEntryStart h = true := by
  have hsep : '\n' ∉ "## [".data := by decide
  obtain ⟨h, t, hsp, hpref⟩ := splitChars_head_isPrefix '\n' "## [".data s.data hs hsep
  refine ⟨String.mk h, t.map String.mk, ?_, ?_⟩
  · unfold jsSplit
    rw [hsp]
    rfl
  · exact hpref

/-- One Changelog Generator run on a document whose first dated entry sits
at positive line index `k` keeps the header block (the first `k` lines)
unchanged, puts the new entry's first line exactly at index `k` — which is
again the document's first entry line — and moves everything that was at
index `k` on (all prior entries included) below the inserted block. -/
theorem updateChangelog_step (C e : String) (k : Nat)
    (hk : findEntryIdx (jsSplit C '\n') = some k) (hpos : 0 < k)
    (he : jsStartsWith (jsTrim e) "## [" = true) :
    (jsSplit (updateChangelog e (some C)) '\n').take k = (jsSplit C '\n').take k
    ∧ findEntryIdx (jsSplit (updateChangelog e (some C)) '\n') = some k
    ∧ (jsSplit (updateChangelog e (some C)) '\n')[k]? = (jsSplit (jsTrim e) '\n')[0]?
    ∧ (jsSplit (updateChangelog e (some C)) '\n').drop
        (k + (jsSplit (jsTrim e) '\n').length + 1) = (jsSplit C '\n').drop k := by
  have hmain := updateChangelog_existing C e k hk hpos
  obtain ⟨h, t, hsp, hentry⟩ := jsSplit_head_entry (jsTrim e) he
  have hlen : ((jsSplit C '\n').take k).length = k := by
    rw [List.length_take]
    exact Nat.min_eq_left (Nat.le_of_lt (findEntryIdx_lt_length _ k hk))
  have hmain' : jsSplit (updateChangelog e (some C)) '\n'
      = (jsSplit C '\n').take k
        ++ (h :: (t ++ ([""] ++ (jsSplit C '\n').drop k))) := by
    rw [hmain, hsp]
    simp [List.append_assoc]
  refine ⟨?_, ?_, ?_, ?_⟩
  · rw [hmain']
    have htl := List.take_left ((jsSplit C '\n').take k)
      (h :: (t ++ ([""] ++ (jsSplit C '\n').drop k)))
    rw [hlen] at htl
    exact htl
  · rw [hmain']
    rw [findEntryIdx_append_entry _ h _ (findEntryIdx_take_none _ k hk) hentry]
    rw [hlen]
  · rw [hmain']
    rw [List.getElem?_append_right hlen.le]
    simp [hlen, hsp]
  · rw [hmain]
    apply List.drop_left'
    simp only [List.length_append, List.length_cons, List.length_nil, hlen]

/-- The document left by inserting an entry into the absent changelog
file: the four header lines are on top, the first entry line is at index
4, and it is the inserted entry's first line. -/
theorem updateChangelog_fresh_inv (e0 : String)
    (he : jsStartsWith (jsTrim e0) "## [" = true) :
    (jsSplit (updateChangelog e0 none) '\n').take 4 = changelogHeaderLines
    ∧ findEntryIdx (jsSplit (updateChangelog e0 none) '\n') = some 4
    ∧ (jsSplit (updateChangelog e0 none) '\n')[4]? = (jsSplit (jsTrim e0) '\n')[0]? := by
  have hmain := updateChangelog_fresh e0
  obtain ⟨h, t, hsp, hentry⟩ := jsSplit_head_entry (jsTrim e0) he
  have hmain' : jsSplit (updateChangelog e0 none) '\n'
      = ["# Changelog", "",
         "All notable changes to this project will be documented in this file.", ""]
        ++ (h :: (t ++ ["", "", ""])) := by
    rw [hmain, hsp]
    simp [List.append_assoc]
  refine ⟨?_, ?_, ?_⟩
  · rw [hmain']
    exact List.take_left changelogHeaderLines _
  · rw [hmain']
    rw [findEntryIdx_append_entry
      ["# Changelog", "", "All notable changes to this project will be documented in this file.", ""]
      h (t ++ ["", "", ""]) (by decide) hentry]
    rfl
  · have h4 : (["# Changelog", "",
        "All notable changes to this project will be documented in this file.", ""]
        : List String).length ≤ 4 := by decide
    rw [hmain', List.getElem?_append_right h4, hsp]
    simp

theorem applyEntries_inv : ∀ (es : List String) (C : String),
    (jsSplit C '\n').take 4 = changelogHeaderLines →
    findEntryIdx (jsSplit C '\n') = some 4 →
    (∀ e ∈ es, jsStartsWith (jsTrim e) "## [" = true) →
    ((jsSplit (applyEntries C es) '\n').take 4 = changelogHeaderLines
     ∧ findEntryIdx (jsSplit (applyEntries C es) '\n') = some 4
     ∧ (es = [] → applyEntries C es = C)
     ∧ ∀ (A : List String) (elast : String), es = A ++ [elast] →
         (jsSplit (applyEntries C es) '\n')[4]? = (jsSplit (jsTrim elast) '\n')[0]?) := by
  intro es
  induction es with
  | nil =>
      intro C h1 h2 _
      refine ⟨h1, h2, fun _ => rfl, ?_⟩
      intro A elast hA
      exact absurd hA (by simp)
  | cons e es' ih =>
      intro C h1 h2 hall
      have he : jsStartsWith (jsTrim e) "## [" = true := hall e (by simp)
      have hstep := updateChangelog_step C e 4 h2 (by omega) he
      have happ : applyEntries C (e :: es')
          = applyEntries (updateChangelog e (some C)) es' := rfl
      have h1' : (jsSplit (updateChangelog e (some C)) '\n').take 4
          = changelogHeaderLines := by
        rw [hstep.1, h1]
      have hih := ih (updateChangelog e (some C)) h1' hstep.2.1
        (fun x hx => hall x (by simp [hx]))
      rw [happ]
      refine ⟨hih.1, hih.2.1, ?_, ?_⟩
      · intro hcon
        exact absurd hcon (by simp)
      · intro A elast hA
        cases A with
        | nil =>
            simp only [List.nil_append] at hA
            injection hA with hA1 hA2
            subst hA2
            rw [show applyEntries (updateChangelog e (some C)) []
                = updateChangelog e (some C) from rfl]
            rw [← hA1]
            exact hstep.2.2.1
        | cons a A' =>
            rw [List.cons_append] at hA
            injection hA with hA1 hA2
            exact hih.2.2.2 A' elast hA2

/-- Starting from the absent changelog file, any nonempty sequence of
Changelog Generator runs leaves the four header lines on top and the most
recently inserted entry's first line at index 4, directly under the
header and above all previously inserted entries. -/
theorem updateChangelog_sequence (e0 : String) (es : List String)
    (hall : ∀ e ∈ e0 :: es, jsStartsWith (jsTrim e) "## [" = true) :
    (jsSplit (applyEntries (updateChangelog e0 none) es) '\n').take 4
        = changelogHeaderLines
    ∧ findEntryIdx (jsSplit (applyEntries (updateChangelog e0 none) es) '\n') = some 4
    ∧ (es = [] → (jsSplit (applyEntries (updateChangelog e0 none) es) '\n')[4]?
        = (jsSplit (jsTrim e0) '\n')[0]?)
    ∧ ∀ (A : List String) (elast : String), es = A ++ [elast] →
        (jsSplit (applyEntries (updateChangelog e0 none) es) '\n')[4]?
          = (jsSplit (jsTrim elast) '\n')[0]? := by
  have he0 := hall e0 (by simp)
  have hfresh := updateChangelog_fresh_inv e0 he0
  have hinv := applyEntries_inv es (updateChangelog e0 none) hfresh.1 hfresh.2.1
    (fun x hx => hall x (by simp [hx]))
  refine ⟨hinv.1, hinv.2.1, ?_, hinv.2.2.2⟩
  intro hes
  subst hes
  rw [show applyEntries (updateChangelog e0 none) [] = updateChangelog e0 none from rfl]
  exact hfresh.2.2

/-- The other insertion path: a document with no dated entry line at all,
or whose very first line is an entry line (`findIndex` returns 0 and the
`|| lines.length` coercion rewrites it), receives the new entry after its
first three lines. -/
theorem updateChangelogLines_nofind (L : List String) (e : String)
    (hnf : findEntryIdx L = none ∨ findEntryIdx L = some 0) :
    updateChangelogLines e L = L.take 3 ++ [""] ++ [jsTrim e] ++ [""] ++ L.drop 3 := by
  rcases hnf with h | h
  · simp only [updateChangelogLines, headerEndIndex, h]
    rw [if_neg (by decide : ¬ ((-1 : Int) = 0))]
    rw [if_pos (Or.inl rfl)]
  · simp only [updateChangelogLines, headerEndIndex, h]
    rw [if_pos (by simp : ((0 : Nat) : Int) = 0)]
    rw [if_pos (Or.inr rfl)]

/-- Claim C9 counterexample: on a changelog document with no dated
entries whose header block is five lines (not the assumed three), the new
entry is inserted inside the header block: the document's entire body is
header (no line starts `## [`), yet after insertion the entry sits at
line index 4 while the header line `Intro line two.` follows it at index
6 — the entry is not placed immediately after the header block. -/
theorem updateChangelog_misplaces_entry :
    findEntryIdx (jsSplit longHeaderDoc '\n') = none
    ∧ jsSplit (updateChangelog "## [2.0.0] - 2024-01-01" (some longHeaderDoc)) '\n' =
        ["# Changelog", "", "Intro line one.", "", "## [2.0.0] - 2024-01-01", "",
         "Intro line two.", ""] :=
  ⟨rfl, rfl⟩

/-- Claim C9 (amended): when the document contains an existing dated
entry at a positive line index, the new entry is spliced in immediately
before that first entry, leaving the preceding header block intact; when
the document has no entry line at all — or its first line is itself an
entry, in which case `findIndex` returns 0 and the `|| lines.length`
coercion rewrites it — the entry is placed after the document's first
three lines, which coincides with "immediately after the header block"
exactly when the header block is three lines long, as it is in the
freshly created document; consequently, starting from the freshly created
document, any sequence of insertions of `## [`-entries keeps the four
header lines on top and the most recently inserted entry's first line
directly under them at line index 4, above all prior entries. -/
theorem updateChangelog_insertion_spec :
    (∀ (L : List String) (e : String) (k : Nat),
        findEntryIdx L = some k → 0 < k →
        updateChangelogLines e L = L.take k ++ [jsTrim e, ""] ++ L.drop k)
    ∧ (∀ (C e : String) (k : Nat),
        findEntryIdx (jsSplit C '\n') = some k → 0 < k →
        jsSplit (updateChangelog e (some C)) '\n' =
          (jsSplit C '\n').take k ++ jsSplit (jsTrim e) '\n' ++ [""]
            ++ (jsSplit C '\n').drop k)
    ∧ (∀ e : String,
        jsSplit (updateChangelog e none) '\n' =
          ["# Changelog", "",
           "All notable changes to this project will be documented in this file.", ""]
            ++ jsSplit (jsTrim e) '\n' ++ ["", "", ""])
    ∧ (∀ (L : List String) (e : String),
        findEntryIdx L = none ∨ findEntryIdx L = some 0 →
        updateChangelogLines e L = L.take 3 ++ [""] ++ [jsTrim e] ++ [""] ++ L.drop 3)
    ∧ (∀ (e0 : String) (es : List String),
        (∀ e ∈ e0 :: es, jsStartsWith (jsTrim e) "## [" = true) →
        (jsSplit (applyEntries (updateChangelog e0 none) es) '\n').take 4
            = changelogHeaderLines
        ∧ findEntryIdx (jsSplit (applyEntries (updateChangelog e0 none) es) '\n') = some 4
        ∧ (es = [] → (jsSplit (applyEntries (updateChangelog e0 none) es) '\n')[4]?
            = (jsSplit (jsTrim e0) '\n')[0]?)
        ∧ ∀ (A : List String) (elast : String), es = A ++ [elast] →
            (jsSplit (applyEntries (updateChangelog e0 none) es) '\n')[4]?
              = (jsSplit (jsTrim elast) '\n')[0]?) :=
  ⟨updateChangelogLines_found, updateChangelog_existing, updateChangelog_fresh,
   updateChangelogLines_nofind, updateChangelog_sequence⟩

/-- Claim C9 witness: inserting a second entry into a document whose
first (and only) entry starts at line 3 places the new entry directly at
line 3, above the old entry; a document whose first line is an entry
takes the slice-at-3 path; and inserting two entries in sequence starting
from the absent file leaves the newer entry's first line at index 4,
directly under the header. -/
theorem updateChangelog_insertion_spec_instance :
    findEntryIdx ["# Changelog", "", "x", "## [1.0.0] - d", ""] = some 3
    ∧ updateChangelogLines "## [1.1.0] - e"
        ["# Changelog", "", "x", "## [1.0.0] - d", ""] =
      ["# Changelog", "", "x", "## [1.1.0] - e", "", "## [1.0.0] - d", ""]
    ∧ findEntryIdx ["## [0.9.0] - c", "old"] = some 0
    ∧ updateChangelogLines "## [1.0.0] - d" ["## [0.9.0] - c", "old"] =
      ["## [0.9.0] - c", "old", "", "## [1.0.0] - d", ""]
    ∧ (jsSplit (applyEntries (updateChangelog "## [1.0.0] - a" none)
          ["## [1.1.0] - b"]) '\n')[4]?
        = some "## [1.1.0] - b" := by
  refine ⟨rfl, ?_, rfl, ?_, ?_⟩
  · have h := updateChangelog_insertion_spec.1 ["# Changelog", "", "x", "## [1.0.0] - d", ""]
      "## [1.1.0] - e" 3 rfl (by omega)
    rw [h]
    rfl
  · have h := updateChangelog_insertion_spec.2.2.2.1 ["## [0.9.0] - c", "old"]
      "## [1.0.0] - d" (Or.inr rfl)
    rw [h]
    rfl
  · have h := (updateChangelog_insertion_spec.2.2.2.2 "## [1.0.0] - a" ["## [1.1.0] - b"]
      (by decide)).2.2.2 [] "## [1.1.0] - b" rfl
    rw [h]
    rfl
